import Mathlib

/-!
# Verification of the jabascript flat-multimap ↔ nested-structure codec

Shallow embedding of the three core operations of the repository:

* `parseFormData`   (packages/form-data/src/index.js) — the Dotted-Path Decoder,
* `createSearchParams` (packages/query/src/index.js)  — the Flat Encoder,
* `parseSearchParams`  (packages/query/src/index.js)  — the Hint-Based Flat Decoder,
* `getLiteralValue`    (packages/query/src/index.js)  — literal normalization.

JavaScript values relevant to the codec are modeled by `JSVal`; numbers do not
occur in the codec's own logic (form/query values are strings) and are omitted.
Plain objects are insertion-ordered association lists (the prototype chain is
not modeled); arrays are lists of `Option JSVal` where `none` is a hole.
Strings are treated as sequences of characters (`List Char`); all string
primitives used by the source (`split`, `substring`, `indexOf`, `endsWith`,
`Number.parseInt`) are given executable structural-recursive definitions so
that concrete runs of the codec evaluate inside the kernel.
-/

namespace Jabascript

/-- The universe of JavaScript values handled by the codec.
`arr` elements of value `none` are array holes (unwritten indices). -/
inductive JSVal where
  | str   : String → JSVal
  | null  : JSVal
  | undef : JSVal
  | obj   : List (String × JSVal) → JSVal
  | arr   : List (Option JSVal) → JSVal

/-- Property read on a plain object: first binding of the key, if any.
A result of `none` corresponds to reading `undefined` from an absent key. -/
def objGet : List (String × JSVal) → String → Option JSVal
  | [], _ => none
  | (k', v') :: rest, k => if k' = k then some v' else objGet rest k

/-- Property write on a plain object: an existing key keeps its insertion
position and gets the new value; a new key is appended at the end
(JavaScript property-order semantics). -/
def objSet : List (String × JSVal) → String → JSVal → List (String × JSVal)
  | [], k, v => [(k, v)]
  | (k', v') :: rest, k, v =>
    if k' = k then (k', v) :: rest else (k', v') :: objSet rest k v

/-- Array element read `a[i]`: out-of-range indices and holes read as
`undefined` (`none`). -/
def arrRead (elems : List (Option JSVal)) (i : Nat) : Option JSVal :=
  (elems[i]?).getD none

/-- Array element write `a[i] = v`: writing past the end pads the intervening
positions with holes, so the length becomes `i + 1`; writing in range
overwrites in place. -/
def arrSet (elems : List (Option JSVal)) (i : Nat) (v : JSVal) : List (Option JSVal) :=
  if i < elems.length then elems.set i (some v)
  else elems ++ List.replicate (i - elems.length) none ++ [some v]

/-! ## String primitives (JavaScript semantics) -/

/-- `String.prototype.split` with a non-empty separator, on character lists:
scan left to right, cutting at each earliest occurrence of the separator. -/
def jsSplitAux (sep : List Char) (buf : List Char) : List Char → List (List Char)
  | [] => [buf]
  | c :: rest =>
    let buf' := buf ++ [c]
    if sep.isSuffixOf buf' then
      buf'.take (buf'.length - sep.length) :: jsSplitAux sep [] rest
    else
      jsSplitAux sep buf' rest

/-- `k.split(separator)`. An empty separator splits into single characters
(JavaScript code-unit splitting). -/
def jsSplit (s sep : String) : List String :=
  if sep.toList.isEmpty then s.toList.map (fun c => ⟨[c]⟩)
  else (jsSplitAux sep.toList [] s.toList).map (fun l => ⟨l⟩)

/-- `s.endsWith(suffix)`. -/
def jsEndsWith (s suffix : String) : Bool :=
  suffix.toList.isSuffixOf s.toList

/-- `s.indexOf("[")`: index of the first `[`, or `-1`. -/
def jsIndexOfBracket (s : String) : Int :=
  match s.toList.findIdx? (· = '[') with
  | some i => (i : Int)
  | none => -1

/-- `s.substring(a, b)`: clamp both arguments into `[0, length]`, swap them
if out of order, and take the characters in between. -/
def jsSubstring (s : String) (a b : Int) : String :=
  let n : Int := (s.length : Int)
  let a' := max 0 (min a n)
  let b' := max 0 (min b n)
  let lo := min a' b'
  let hi := max a' b'
  ⟨(s.toList.drop lo.toNat).take (hi - lo).toNat⟩

/-- Characters skipped by `Number.parseInt` before the number. -/
def isJsSpace (c : Char) : Bool :=
  c = ' ' || c = '\t' || c = '\n' || c = '\r' || c = '\x0b' || c = '\x0c'

/-- Value of the longest leading run of decimal digits; `none` if there is
no leading digit. -/
def digitsVal (cs : List Char) : Option Nat :=
  let ds := cs.takeWhile Char.isDigit
  if ds.isEmpty then none
  else some (ds.foldl (fun a c => a * 10 + (c.toNat - 48)) 0)

/-- `Number.parseInt(s, 10)`: skip whitespace, take an optional sign, then the
longest run of decimal digits; `none` models `NaN`.  (JavaScript's `-0` result
compares `< 0` as false, so collapsing it to `0` is observationally faithful.) -/
def jsParseInt10 (s : String) : Option Int :=
  match s.toList.dropWhile isJsSpace with
  | '-' :: rest => (digitsVal rest).map (fun n => -(n : Int))
  | '+' :: rest => (digitsVal rest).map (fun n => (n : Int))
  | cs => (digitsVal cs).map (fun n => (n : Int))

/-! ## Dotted-Path Decoder (`parseFormData`, form-data/src/index.js) -/

/-- Errors a decode can raise.  `indexFormat k` is the
`index must be a positive integer (at k)` error of line 66; `typeError` models
the JavaScript `TypeError` raised when the walk meets a value of the wrong
kind (the spec's "accepted ambiguity" of mixed accessor shapes). -/
inductive JErr where
  | indexFormat : String → JErr
  | typeError : JErr
deriving DecidableEq

/-- `acc.indexOf("[")` as used on line 61. -/
def segStart (acc : String) : Int := jsIndexOfBracket acc

/-- `acc.substring(0, start)` — the name part of a bracketed segment (line 63). -/
def segName (acc : String) : String := jsSubstring acc 0 (segStart acc)

/-- `acc.substring(start + 1, acc.length - 1)` — the bracket content (line 62). -/
def segContent (acc : String) : String :=
  jsSubstring acc (segStart acc + 1) ((acc.length : Int) - 1)

/-- The `??=`-style defaulting reads of the source: absent, `undefined` and
`null` slots are replaced by the freshly created container. -/
def defaultSlot (cur : Option JSVal) (fresh : JSVal) : JSVal :=
  match cur with
  | none => fresh
  | some .undef => fresh
  | some .null => fresh
  | some x => x

/-- The inner `for (let p = 0; ...)` loop of `parseFormData` (lines 56–88),
expressed as a recursion over the remaining raw segments.  `k` is the full
composite key (used in the error), `v` the entry's value, and the current
cursor is rebuilt functionally on the way out (observationally equal to the
source's in-place mutation, since the walk follows a single path).  A cursor
that is not an object cannot be indexed or tested with `in`; such mixed-shape
accesses are modeled as `typeError`. -/
def walk (k : String) (v : JSVal) : List String → JSVal → Except JErr JSVal
  | [], cur => .ok cur
  | acc :: rest, cur =>
    if jsEndsWith acc "]" then
      -- lines 60–72: bracketed accessor
      match jsParseInt10 (segContent acc) with
      | none => .error (.indexFormat k)
      | some idx =>
        if idx < 0 then .error (.indexFormat k)
        else
          let kn := segName acc
          let i := idx.toNat
          match cur with
          | .obj fields =>
            match defaultSlot (objGet fields kn) (.arr []) with
            | .arr elems =>
              if rest.isEmpty then
                -- line 70, terminal: obj[kn][idx] = v
                .ok (.obj (objSet fields kn (.arr (arrSet elems i v))))
              else
                -- line 70, non-terminal: obj = obj[kn][idx] ??= {}
                match walk k v rest (defaultSlot (arrRead elems i) (.obj [])) with
                | .error e => .error e
                | .ok child => .ok (.obj (objSet fields kn (.arr (arrSet elems i child))))
            | _ => .error .typeError
          | _ => .error .typeError
    else
      match cur with
      | .obj fields =>
        if rest.isEmpty then
          -- lines 80–87: terminal plain accessor
          match objGet fields acc with
          | none => .ok (.obj (objSet fields acc v))
          | some old =>
            match old with
            | .arr elems => .ok (.obj (objSet fields acc (.arr (elems ++ [some v]))))
            | _ => .ok (.obj (objSet fields acc (.arr [some old, some v])))
        else
          -- line 76: obj = obj[acc] ??= {}
          match walk k v rest (defaultSlot (objGet fields acc) (.obj [])) with
          | .error e => .error e
          | .ok child => .ok (.obj (objSet fields acc child))
      | _ => .error .typeError

/-- One iteration of the outer `for (const [k, v] of data)` loop:
split the key and walk the segments against the root. -/
def stepEntry (sep : String) (fields : List (String × JSVal)) (k v : String) :
    Except JErr (List (String × JSVal)) :=
  match walk k (.str v) (jsSplit k sep) (.obj fields) with
  | .error e => .error e
  | .ok (.obj fields') => .ok fields'
  | .ok _ => .error .typeError  -- unreachable: a walk from an object cursor yields an object

/-- The outer loop's state transformer: a previously thrown error is
propagated unchanged (the `throw` aborts the loop). -/
def pfFold (sep : String) (s : Except JErr (List (String × JSVal))) (e : String × String) :
    Except JErr (List (String × JSVal)) :=
  s.bind fun fields => stepEntry sep fields e.1 e.2

/-- `parseFormData(data, separator = ".")`: fold the entries over an empty
root record; a thrown error aborts the whole call (`Except` short-circuit). -/
def parseFormData (entries : List (String × String)) (sep : String := ".") :
    Except JErr (List (String × JSVal)) :=
  entries.foldl (pfFold sep) (.ok [])

/-! ## Flat Encoder (`createSearchParams`, query/src/index.js) -/

/-- `ToString` coercion applied by `URLSearchParams.set`/`append`.
Arrays stringify by joining their elements with `","`, holes and stored
`null`/`undefined` elements becoming empty; plain objects stringify to
`"[object Object]"`. -/
def jsToString : JSVal → String
  | .str s => s
  | .null => "null"
  | .undef => "undefined"
  | .obj _ => "[object Object]"
  | .arr elems => joinElems elems
where
  joinElems : List (Option JSVal) → String
    | [] => ""
    | [e] => elemStr e
    | e :: rest => elemStr e ++ "," ++ joinElems rest
  elemStr : Option JSVal → String
    | none => ""
    | some .null => ""
    | some .undef => ""
    | some v => jsToString v

/-- `val === undefined || val === null`. -/
def isNullish : JSVal → Bool
  | .undef => true
  | .null => true
  | _ => false

/-- `!!obj && typeof obj === "object"` — true for plain objects *and* arrays
(JavaScript arrays have `typeof "object"`), false for `null`, `undefined`
and strings. -/
def isJsObject : JSVal → Bool
  | .obj _ => true
  | .arr _ => true
  | _ => false

/-- A string that is a canonical array-index property name
(`"0"`, `"1"`, …, no leading zeros). -/
def canonicalIndex (s : String) : Option Nat :=
  match s.toList with
  | [] => none
  | ['0'] => some 0
  | c :: cs =>
    if c.isDigit && c ≠ '0' && cs.all Char.isDigit then
      some ((c :: cs).foldl (fun a d => a * 10 + (d.toNat - 48)) 0)
    else none

/-- Property read `o[key]` with a string key on an object or an array.
On arrays only canonical index properties are modeled (`length` and methods
are outside the value universe); anything else reads `undefined` (`none`). -/
def propLookup : JSVal → String → Option JSVal
  | .obj fields, s => objGet fields s
  | .arr elems, s =>
    match canonicalIndex s with
    | some i => arrRead elems i
    | none => none
  | _, _ => none

/-- Array read that coerces an absent element / hole to `undefined`,
as array destructuring does. -/
def arrReadJS (elems : List (Option JSVal)) (i : Nat) : JSVal :=
  match arrRead elems i with
  | none => .undef
  | some v => v

/-- `URLSearchParams.append(k, v)` (after `ToString`). -/
def uspAppend (l : List (String × String)) (k v : String) : List (String × String) :=
  l ++ [(k, v)]

/-- `URLSearchParams.set(k, v)`: replace the first occurrence of the key in
place, deleting any later occurrences; append if absent. -/
def uspSet : List (String × String) → String → String → List (String × String)
  | [], k, v => [(k, v)]
  | (k', v') :: rest, k, v =>
    if k' = k then (k', v) :: rest.filter (fun p => p.1 ≠ k)
    else (k', v') :: uspSet rest k v

/-- `val.forEach((x) => source.append(key, x))`: `forEach` skips holes but
visits stored `null`/`undefined` elements. -/
def appendAll (src : List (String × String)) (key : String)
    (elems : List (Option JSVal)) : List (String × String) :=
  elems.foldl
    (fun s el =>
      match el with
      | none => s
      | some x => uspAppend s key (jsToString x))
    src

/-- One iteration of the `for (let i = 0; ...)` loop of `createSearchParams`
(lines 36–53). -/
def cspStep (allowFalsy : Bool) (src : List (String × String)) (e : String × JSVal) :
    List (String × String) :=
  match e with
  | (key, val) =>
    -- line 38
    if !allowFalsy && isNullish val then src
    else
      match val with
      | .arr elems =>
        if elems.length = 2 then
          -- lines 42–46: const [obj, objKey] = val
          let o := arrReadJS elems 0
          let objKey := arrReadJS elems 1
          match objKey, isJsObject o with
          | .str ks, true => uspSet src key (jsToString ((propLookup o ks).getD .undef))
          | _, _ => appendAll src key elems
        else appendAll src key elems
      | other => uspSet src key (jsToString other)

/-- `createSearchParams(params = {}, allowFalsy = false)`: fold the record's
entries (insertion-ordered) into an empty `URLSearchParams`, modeled as the
ordered multimap of its `(key, value)` pairs. -/
def createSearchParams (params : List (String × JSVal)) (allowFalsy : Bool := false) :
    List (String × String) :=
  params.foldl (cspStep allowFalsy) []

/-! ## Hint-Based Flat Decoder (`parseSearchParams`, query/src/index.js) -/

/-- Convert literal `"null"`/`"undefined"` strings to their real values
(lines 157–161). -/
def getLiteralValue (value : String) : JSVal :=
  if value = "null" then .null
  else if value = "undefined" then .undef
  else .str value

/-- One iteration of the `for (const [x, y] of searchParams.entries())` loop
of `parseSearchParams` (lines 131–147).  Note that `result[x] === undefined`
(line 139) cannot distinguish an absent slot from a slot holding a stored
`undefined`, and `x in result` (line 133) is true for a stored `undefined`. -/
def pspStep (allowFalsy : Bool) (res : List (String × JSVal)) (e : String × String) :
    List (String × JSVal) :=
  match e with
  | (x, y) =>
    let val := getLiteralValue y
    let isArray := jsEndsWith x "[]" || (objGet res x).isSome
    if !isArray && !allowFalsy && isNullish val then res
    else if !isArray then objSet res x val
    else
      let base : List (Option JSVal) :=
        match objGet res x with
        | none => []                 -- result[x] === undefined (absent)
        | some .undef => []          -- result[x] === undefined (stored undefined)
        | some (.arr elems) => elems
        | some other => [some other] -- result[x] = [result[x]]
      objSet res x (.arr (base ++ [some val]))

/-- `parseSearchParams(searchParams, allowFalsy = false)`. -/
def parseSearchParams (entries : List (String × String)) (allowFalsy : Bool := false) :
    List (String × JSVal) :=
  entries.foldl (pspStep allowFalsy) []

/-! ## Basic lemmas about the record and array primitives -/

theorem objGet_objSet_self (l : List (String × JSVal)) (k : String) (v : JSVal) :
    objGet (objSet l k v) k = some v := by
  induction l with
  | nil => simp [objGet, objSet]
  | cons p rest ih =>
    obtain ⟨k', v'⟩ := p
    by_cases h : k' = k
    · simp [objGet, objSet, h]
    · simp [objGet, objSet, h, ih]

theorem objSet_objSet_self (l : List (String × JSVal)) (k : String) (v w : JSVal) :
    objSet (objSet l k v) k w = objSet l k w := by
  induction l with
  | nil => simp [objSet]
  | cons p rest ih =>
    obtain ⟨k', v'⟩ := p
    by_cases h : k' = k
    · simp [objSet, h]
    · simp [objSet, h, ih]

theorem length_arrSet (l : List (Option JSVal)) (i : Nat) (v : JSVal) :
    (arrSet l i v).length = max l.length (i + 1) := by
  unfold arrSet
  by_cases h : i < l.length
  · simp [h]; omega
  · simp [h]; omega

theorem getElem?_arrSet_self (l : List (Option JSVal)) (i : Nat) (v : JSVal) :
    (arrSet l i v)[i]? = some (some v) := by
  unfold arrSet
  by_cases h : i < l.length
  · simp [h]
  · have hlen : (l ++ List.replicate (i - l.length) none).length = i := by simp; omega
    rw [if_neg h, List.getElem?_append_right (le_of_eq hlen), hlen]
    simp

theorem getElem?_arrSet_ne (l : List (Option JSVal)) (i : Nat) (v : JSVal) (m : Nat)
    (hm : m ≠ i) :
    (arrSet l i v)[m]? = if m < l.length then l[m]? else if m < i then some none else none := by
  unfold arrSet
  by_cases h : i < l.length
  · rw [if_pos h, List.getElem?_set_ne (Ne.symm hm)]
    by_cases hml : m < l.length
    · rw [if_pos hml]
    · rw [if_neg hml, if_neg (by omega : ¬ m < i),
        List.getElem?_eq_none (by omega : l.length ≤ m)]
  · rw [if_neg h]
    by_cases hml : m < l.length
    · rw [List.getElem?_append_left (by simp; omega), List.getElem?_append_left hml,
        if_pos hml]
    · rw [if_neg hml]
      by_cases hmi : m < i
      · rw [List.getElem?_append_left (by simp; omega),
          List.getElem?_append_right (by omega), List.getElem?_replicate,
          if_pos (by omega), if_pos hmi]
      · rw [List.getElem?_append_right (by simp; omega), if_neg hmi,
          List.getElem?_eq_none (by simp; omega)]

theorem arrSet_comm {i j : Nat} (hij : i ≠ j) (l : List (Option JSVal)) (v w : JSVal) :
    arrSet (arrSet l i v) j w = arrSet (arrSet l j w) i v := by
  apply List.ext_getElem?
  intro m
  rcases eq_or_ne m j with rfl | hmj
  · rw [getElem?_arrSet_self, getElem?_arrSet_ne _ _ _ _ (Ne.symm hij), length_arrSet,
      if_pos (by omega), getElem?_arrSet_self]
  · rcases eq_or_ne m i with rfl | hmi
    · rw [getElem?_arrSet_ne _ _ _ _ hmj, getElem?_arrSet_self, length_arrSet,
        if_pos (by omega), getElem?_arrSet_self]
    · rw [getElem?_arrSet_ne _ _ _ _ hmj, getElem?_arrSet_ne _ _ _ _ hmi,
        getElem?_arrSet_ne _ _ _ _ hmi, getElem?_arrSet_ne _ _ _ _ hmj,
        length_arrSet, length_arrSet]
      by_cases hml : m < l.length
      · rw [if_pos (show m < max l.length (i + 1) from by omega),
          if_pos (show m < max l.length (j + 1) from by omega), if_pos hml, if_pos hml]
      · rw [if_neg hml, if_neg hml]
        split_ifs <;> first | rfl | omega

/-- A position never written by a sequence of indexed writes reads as a hole
while in range, and is absent beyond the length. -/
theorem foldl_arrSet_unwritten (ws : List (Nat × JSVal)) (i : Nat)
    (hw : ∀ p ∈ ws, p.1 ≠ i) (l : List (Option JSVal))
    (hl : l[i]? = if i < l.length then some none else none) :
    (ws.foldl (fun l p => arrSet l p.1 p.2) l)[i]? =
      if i < (ws.foldl (fun l p => arrSet l p.1 p.2) l).length then some none else none := by
  induction ws generalizing l with
  | nil => exact hl
  | cons p rest ih =>
    simp only [List.foldl_cons]
    apply ih (fun q hq => hw q (List.mem_cons_of_mem _ hq))
    have hne := hw p (List.mem_cons_self _ _)
    rw [getElem?_arrSet_ne _ _ _ _ (Ne.symm hne), length_arrSet, hl]
    by_cases h1 : i < l.length
    · rw [if_pos h1, if_pos h1, if_pos (by omega)]
    · rw [if_neg h1]
      by_cases h2 : i < p.1
      · rw [if_pos h2, if_pos (by omega)]
      · rw [if_neg h2, if_neg (by omega)]

/-! ## Claim theorems -/

set_option maxHeartbeats 1600000 in
/-- **C1** — Dotted-Path Decoder, plain (non-indexed) terminal keys: an
absent slot receives the bare scalar; a slot holding a prior scalar is
replaced by the two-element sequence `[oldScalar, newValue]`; a slot holding
a sequence is appended to — so `tags=a,b,c` decodes to `{tags: [a,b,c]}`
while a single `tags=a` stays the scalar `a`, in input order. -/
theorem C1_plain_terminal_promotion :
    (∀ (fields : List (String × JSVal)) (acc v : String),
      jsEndsWith acc "]" = false →
        (objGet fields acc = none →
          walk acc (.str v) [acc] (.obj fields) = .ok (.obj (objSet fields acc (.str v)))) ∧
        (∀ s, objGet fields acc = some (.str s) →
          walk acc (.str v) [acc] (.obj fields) =
            .ok (.obj (objSet fields acc (.arr [some (.str s), some (.str v)])))) ∧
        (∀ elems, objGet fields acc = some (.arr elems) →
          walk acc (.str v) [acc] (.obj fields) =
            .ok (.obj (objSet fields acc (.arr (elems ++ [some (.str v)]))))))
    ∧ parseFormData [("tags", "a"), ("tags", "b"), ("tags", "c")] =
        .ok [("tags", .arr [some (.str "a"), some (.str "b"), some (.str "c")])]
    ∧ parseFormData [("tags", "a")] = .ok [("tags", .str "a")] := by
  refine ⟨?_, rfl, rfl⟩
  intro fields acc v h
  refine ⟨fun hget => ?_, fun s hget => ?_, fun elems hget => ?_⟩ <;>
    · simp only [walk]
      rw [h]
      simp only [Bool.false_eq_true, if_false]
      simp [hget]

/-- Witness for C1: a second occurrence of a plain key promotes the prior
scalar into a two-element sequence. -/
theorem C1_plain_terminal_promotion_witness :
    walk "tags" (.str "b") ["tags"] (.obj [("tags", JSVal.str "a")]) =
      .ok (.obj [("tags", .arr [some (.str "a"), some (.str "b")])]) :=
  (C1_plain_terminal_promotion.1 [("tags", JSVal.str "a")] "tags" "b" rfl).2.1 "a" rfl

/-- **C2** — Dotted-Path Decoder, terminal indexed accessors: the value is
written at the parsed index of the sequence at `cursor[name]` (created empty
if absent), overwriting any prior element; the length of a sequence built by
indexed writes is one plus the greatest index ever written; never-written
positions in range are holes; the sparse example decodes accordingly. -/
theorem C2_terminal_indexed_sparse :
    (∀ (k acc : String) (v : JSVal) (fields : List (String × JSVal)) (i : Int),
      jsEndsWith acc "]" = true →
      jsParseInt10 (segContent acc) = some i → 0 ≤ i →
        (objGet fields (segName acc) = none →
          walk k v [acc] (.obj fields) =
            .ok (.obj (objSet fields (segName acc) (.arr (arrSet [] i.toNat v))))) ∧
        (∀ elems, objGet fields (segName acc) = some (.arr elems) →
          walk k v [acc] (.obj fields) =
            .ok (.obj (objSet fields (segName acc) (.arr (arrSet elems i.toNat v))))))
    ∧ (∀ (l : List (Option JSVal)) (i : Nat) (v : JSVal),
        arrRead (arrSet l i v) i = some v)
    ∧ (∀ (ws : List (Nat × JSVal)) (l : List (Option JSVal)),
        (ws.foldl (fun l p => arrSet l p.1 p.2) l).length =
          ws.foldl (fun m p => max m (p.1 + 1)) l.length)
    ∧ (∀ (ws : List (Nat × JSVal)) (i : Nat), (∀ p ∈ ws, p.1 ≠ i) →
        (ws.foldl (fun l p => arrSet l p.1 p.2) [])[i]? =
          if i < (ws.foldl (fun l p => arrSet l p.1 p.2) []).length then some none
          else none)
    ∧ parseFormData [("sparse[0]", "first"), ("sparse[5]", "sixth")] =
        .ok [("sparse",
          .arr [some (.str "first"), none, none, none, none, some (.str "sixth")])] := by
  refine ⟨?_, ?_, ?_, ?_, rfl⟩
  · intro k acc v fields i h hp hge
    refine ⟨fun hget => ?_, fun elems hget => ?_⟩ <;>
      · simp only [walk]
        rw [h, hp]
        simp [hget, defaultSlot, not_lt.mpr hge]
  · intro l i v
    simp [arrRead, getElem?_arrSet_self]
  · intro ws
    induction ws with
    | nil => intro l; rfl
    | cons p rest ih =>
      intro l
      simp only [List.foldl_cons]
      rw [ih, length_arrSet]
  · intro ws i hw
    exact foldl_arrSet_unwritten ws i hw [] (by simp)

/-- Witness for C2: writing index 5 over a one-element sequence pads indices
1–4 with holes and stores the value at index 5. -/
theorem C2_terminal_indexed_sparse_witness :
    walk "sparse[5]" (.str "sixth") ["sparse[5]"]
        (.obj [("sparse", JSVal.arr [some (.str "first")])]) =
      .ok (.obj [("sparse",
        .arr [some (.str "first"), none, none, none, none, some (.str "sixth")])]) :=
  (C2_terminal_indexed_sparse.1 "sparse[5]" "sparse[5]" (.str "sixth")
      [("sparse", JSVal.arr [some (.str "first")])] 5 rfl rfl (by decide)).2
    [some (.str "first")] rfl

/-- Counterexample to C3 as stated: the bracket content `2abc` is not the
base-10 numeral of a non-negative integer, yet decode does not fail —
`Number.parseInt` accepts the digit prefix `2` and the value lands at
index 2. -/
theorem C3_counterexample :
    parseFormData [("invalid[2abc]", "v")] =
      .ok [("invalid", .arr [none, none, some (.str "v")])] := rfl

/-- **C3 (amended)** — A bracketed terminal segment raises IndexFormatError
iff `Number.parseInt`-style parsing of the bracket content (longest signed
run of digits, after optional whitespace and sign) finds no digits or a
negative value: `invalid[abc]` and `invalid[-1]` fail as claimed, but a
content such as `2abc` parses to its digit prefix `2` and succeeds. -/
theorem C3_index_error_iff :
    (∀ (k acc : String) (v : JSVal) (fields : List (String × JSVal)),
      jsEndsWith acc "]" = true →
        (walk k v [acc] (.obj fields) = .error (.indexFormat k) ↔
          jsParseInt10 (segContent acc) = none ∨
            ∃ m : Int, jsParseInt10 (segContent acc) = some m ∧ m < 0))
    ∧ parseFormData [("invalid[abc]", "v")] = .error (.indexFormat "invalid[abc]")
    ∧ parseFormData [("invalid[-1]", "v")] = .error (.indexFormat "invalid[-1]")
    ∧ parseFormData [("invalid[2abc]", "v")] =
        .ok [("invalid", .arr [none, none, some (.str "v")])] := by
  refine ⟨?_, rfl, rfl, rfl⟩
  intro k acc v fields h
  constructor
  · intro hw
    rcases hcase : jsParseInt10 (segContent acc) with _ | m
    · exact Or.inl rfl
    · by_cases hm : m < 0
      · exact Or.inr ⟨m, rfl, hm⟩
      · exfalso
        simp only [walk] at hw
        rw [h] at hw
        simp only [if_true, eq_self_iff_true] at hw
        rw [hcase] at hw
        dsimp only at hw
        rw [if_neg hm] at hw
        rcases hslot : defaultSlot (objGet fields (segName acc)) (JSVal.arr []) with
          s | _ | _ | fl | el <;> rw [hslot] at hw <;> simp at hw
  · rintro (hp | ⟨m, hp, hm⟩)
    · simp only [walk]
      rw [h]
      simp only [if_true, eq_self_iff_true]
      rw [hp]
    · simp only [walk]
      rw [h]
      simp only [if_true, eq_self_iff_true]
      rw [hp]
      dsimp only
      rw [if_pos hm]

/-- Witness for C3 (amended): a non-numeric bracket content raises the
index-format error. -/
theorem C3_index_error_iff_witness :
    walk "x[abc]" (.str "v") ["x[abc]"] (.obj []) = .error (.indexFormat "x[abc]") :=
  (C3_index_error_iff.1 "x[abc]" "x[abc]" (.str "v") [] rfl).mpr (Or.inl rfl)

/-- A fold that has already thrown propagates its error over any remaining
entries (the source's `throw` exits the loop). -/
theorem foldl_pfFold_error (sep : String) (e : JErr) (l : List (String × String)) :
    l.foldl (pfFold sep) (.error e) = .error e := by
  induction l with
  | nil => rfl
  | cons p rest ih => exact ih

/-- **C4** — An IndexFormatError raised while processing an entry aborts the
whole decode: whatever well-formed prefix had already been folded in and
whatever entries follow, `parseFormData` returns the error itself, never a
partial or best-effort tree. -/
theorem C4_error_aborts_decode (sep k v ek : String) (pre post : List (String × String))
    (fields : List (String × JSVal))
    (h1 : parseFormData pre sep = .ok fields)
    (h2 : stepEntry sep fields k v = .error (.indexFormat ek)) :
    parseFormData (pre ++ (k, v) :: post) sep = .error (.indexFormat ek) := by
  unfold parseFormData
  rw [List.foldl_append]
  unfold parseFormData at h1
  rw [h1]
  simp only [List.foldl_cons]
  have hstep : pfFold sep (.ok fields) (k, v) = .error (.indexFormat ek) := by
    simpa [pfFold] using h2
  rw [hstep]
  exact foldl_pfFold_error sep _ post

/-- Witness for C4: a malformed bracket in the middle entry surfaces as the
decode's overall result despite a valid first and last entry. -/
theorem C4_error_aborts_decode_witness :
    parseFormData ([("a", "x")] ++ ("bad[]", "y") :: [("c", "z")]) =
      .error (.indexFormat "bad[]") :=
  C4_error_aborts_decode "." "bad[]" "y" "bad[]" [("a", "x")] [("c", "z")]
    [("a", JSVal.str "x")] rfl rfl

/-- Counterexample to C9 as stated: decode succeeds on the composite key
`.a` and creates a property whose name is the empty string. -/
theorem C9_counterexample :
    parseFormData [(".a", "v")] = .ok [("", .obj [("a", .str "v")])] := rfl

/-- **C9 (amended)** — The decoder performs no emptiness validation: an empty
raw segment becomes an empty-named Record property, and a bracketed segment
with no name before `[` creates an empty-named Sequence property; the keys
`.a`, `a..b`, `""` and `[0]` all decode successfully with empty-named slots. -/
theorem C9_empty_segments_allowed :
    parseFormData [(".a", "v")] = .ok [("", .obj [("a", .str "v")])]
    ∧ parseFormData [("a..b", "v")] = .ok [("a", .obj [("", .obj [("b", .str "v")])])]
    ∧ parseFormData [("", "v")] = .ok [("", .str "v")]
    ∧ parseFormData [("[0]", "v")] = .ok [("", .arr [some (.str "v")])] :=
  ⟨rfl, rfl, rfl, rfl⟩

/-- A non-negative `parseInt` result read through `getD (-1)` pins down the
parsed value. -/
theorem parse_nonneg_some (s : String) (h : 0 ≤ (jsParseInt10 s).getD (-1)) :
    ∃ i : Int, jsParseInt10 s = some i ∧ 0 ≤ i := by
  rcases hc : jsParseInt10 s with _ | m
  · rw [hc] at h
    simp only [Option.getD_none] at h
    omega
  · rw [hc] at h
    simp only [Option.getD_some] at h
    exact ⟨m, rfl, h⟩

/-- Characterization of one decode step on an entry whose key is a single
bracketed segment with a well-formed non-negative index: the value is written
at that index of the sequence at the segment's name (created if the slot was
absent/nullish), and a slot of any other kind is a type error. -/
theorem stepEntry_single_indexed (sep : String) (fields : List (String × JSVal))
    (k v : String) (i : Int)
    (hsplit : jsSplit k sep = [k]) (hend : jsEndsWith k "]" = true)
    (hp : jsParseInt10 (segContent k) = some i) (hge : 0 ≤ i) :
    stepEntry sep fields k v =
      match defaultSlot (objGet fields (segName k)) (.arr []) with
      | .arr elems =>
        .ok (objSet fields (segName k) (.arr (arrSet elems i.toNat (.str v))))
      | _ => .error .typeError := by
  unfold stepEntry
  rw [hsplit]
  simp only [walk]
  rw [hend]
  simp only [if_true, eq_self_iff_true]
  rw [hp]
  dsimp only
  rw [if_neg (not_lt.mpr hge)]
  rcases defaultSlot (objGet fields (segName k)) (JSVal.arr []) with
    s | _ | _ | fl | elems <;> rfl

/-- Counterexample to C8 as stated: the composite keys `a[0]` and `a[00]`
are distinct and both address slot `(root, "a")` with the indexed shape, yet
they parse to the same index 0, so the two orders give different trees. -/
theorem C8_counterexample :
    parseFormData [("a[0]", "x"), ("a[00]", "y")] = .ok [("a", .arr [some (.str "y")])]
    ∧ parseFormData [("a[00]", "y"), ("a[0]", "x")] = .ok [("a", .arr [some (.str "x")])]
    ∧ parseFormData [("a[0]", "x"), ("a[00]", "y")] ≠
        parseFormData [("a[00]", "y"), ("a[0]", "x")] := by
  refine ⟨rfl, rfl, ?_⟩
  show Except.ok [("a", JSVal.arr [some (JSVal.str "y")])] ≠
    Except.ok [("a", JSVal.arr [some (JSVal.str "x")])]
  intro hcon
  simp at hcon

/-- **C8 (amended)** — Entry order is irrelevant when (and only under
conditions ensuring that) the *parsed index values* are pairwise distinct:
for entries that are all single-segment terminal indexed accessors on one
name `n` whose bracket contents parse (parseInt-style) to pairwise-distinct
non-negative indices, every permutation of the entries decodes to the same
tree.  Distinctness of the raw composite keys does not suffice (`a[0]` vs
`a[00]`), and entries introducing different record keys change the record's
insertion order when permuted, so the invariance is stated for a single
name's sequence. -/
theorem C8_indexed_perm_invariance (sep n : String)
    (entries entries' : List (String × String))
    (hperm : List.Perm entries entries')
    (hwf : ∀ p ∈ entries,
      jsSplit p.1 sep = [p.1] ∧ jsEndsWith p.1 "]" = true ∧ segName p.1 = n ∧
        0 ≤ (jsParseInt10 (segContent p.1)).getD (-1))
    (hidx : (entries.map (fun p => jsParseInt10 (segContent p.1))).Nodup) :
    parseFormData entries sep = parseFormData entries' sep := by
  unfold parseFormData
  refine hperm.foldl_eq' ?_ _
  intro x hx y hy z
  rcases z with e | fields
  · rfl
  by_cases hxy : x = y
  · rw [hxy]
  obtain ⟨hsx, hex, hnx, hgx⟩ := hwf x hx
  obtain ⟨hsy, hey, hny, hgy⟩ := hwf y hy
  obtain ⟨ix, hpx, hgex⟩ := parse_nonneg_some _ hgx
  obtain ⟨iy, hpy, hgey⟩ := parse_nonneg_some _ hgy
  have hne : ix ≠ iy := by
    intro hcontra
    exact hxy (List.inj_on_of_nodup_map hidx hx hy (by rw [hpx, hpy, hcontra]))
  have hnat : ix.toNat ≠ iy.toNat := by omega
  have ex := stepEntry_single_indexed sep fields x.1 x.2 ix hsx hex hpx hgex
  have ey := stepEntry_single_indexed sep fields y.1 y.2 iy hsy hey hpy hgey
  rw [hnx] at ex
  rw [hny] at ey
  show pfFold sep (stepEntry sep fields x.1 x.2) y =
    pfFold sep (stepEntry sep fields y.1 y.2) x
  rcases hslot : defaultSlot (objGet fields n) (JSVal.arr []) with s | _ | _ | fl | elems <;>
    rw [hslot] at ex ey
  · rw [ex, ey]; rfl
  · rw [ex, ey]; rfl
  · rw [ex, ey]; rfl
  · rw [ex, ey]; rfl
  · rw [ex, ey]
    have e2 := stepEntry_single_indexed sep
      (objSet fields n (.arr (arrSet elems ix.toNat (.str x.2)))) y.1 y.2 iy hsy hey hpy hgey
    rw [hny, objGet_objSet_self] at e2
    dsimp only [defaultSlot] at e2
    rw [objSet_objSet_self] at e2
    have e3 := stepEntry_single_indexed sep
      (objSet fields n (.arr (arrSet elems iy.toNat (.str y.2)))) x.1 x.2 ix hsx hex hpx hgex
    rw [hnx, objGet_objSet_self] at e3
    dsimp only [defaultSlot] at e3
    rw [objSet_objSet_self] at e3
    show stepEntry sep (objSet fields n (.arr (arrSet elems ix.toNat (.str x.2)))) y.1 y.2 =
      stepEntry sep (objSet fields n (.arr (arrSet elems iy.toNat (.str y.2)))) x.1 x.2
    rw [e2, e3, arrSet_comm hnat]

/-- Witness for C8 (amended): the claim's own example — `items[1]` then
`items[0]` decodes to the same tree as `items[0]` then `items[1]`. -/
theorem C8_indexed_perm_invariance_witness :
    parseFormData [("items[1]", "second"), ("items[0]", "first")] =
      parseFormData [("items[0]", "first"), ("items[1]", "second")] :=
  C8_indexed_perm_invariance "." "items"
    [("items[1]", "second"), ("items[0]", "first")]
    [("items[0]", "first"), ("items[1]", "second")]
    (by decide) (by decide) (by decide)

/-! ### Helper lemmas for the query package -/

/-- Setting an absent key appends it at the end (JS insertion order). -/
theorem objSet_of_objGet_none (res : List (String × JSVal)) (x : String) (v : JSVal)
    (h : objGet res x = none) : objSet res x v = res ++ [(x, v)] := by
  induction res with
  | nil => rfl
  | cons p rest ih =>
    obtain ⟨k', v'⟩ := p
    by_cases hk : k' = x
    · simp [objGet, hk] at h
    · simp only [objSet, if_neg hk, List.cons_append, List.cons.injEq, true_and]
      exact ih (by simpa [objGet, hk] using h)

/-- The encoder's one-entry step on a 2-element array whose first element is
a non-null object and whose second is a string: the keyed-lookup branch of
lines 42–46 applies. -/
theorem cspStep_options_tuple (aF : Bool) (src : List (String × String)) (key s : String)
    (o : JSVal) (ho : isJsObject o = true) :
    cspStep aF src (key, .arr [some o, some (.str s)]) =
      uspSet src key (jsToString ((propLookup o s).getD .undef)) := by
  dsimp only [cspStep]
  rw [show isNullish (JSVal.arr [some o, some (.str s)]) = false from rfl,
    show arrReadJS [some o, some (JSVal.str s)] 0 = o from rfl,
    show arrReadJS [some o, some (JSVal.str s)] 1 = JSVal.str s from rfl, ho]
  simp

/-! ### Claim theorems for the query package -/

/-- Counterexample to C5 as stated: a 2-element array whose first element is
a Sequence (not a Record) and whose second is a string is still routed to
the keyed-lookup branch (JavaScript arrays satisfy `typeof === "object"`),
emitting the single entry `("k", "undefined")` instead of the two generic
entries `("k","a"), ("k","b")` the claim predicts. -/
theorem C5_counterexample :
    createSearchParams
        [("k", .arr [some (.arr [some (.str "a"), some (.str "b")]), some (.str "x")])] =
      [("k", "undefined")]
    ∧ [(("k" : String), ("undefined" : String))] ≠ [("k", "a"), ("k", "b")] :=
  ⟨rfl, by decide⟩

/-- **C5 (amended)** — The options-tuple branch applies to a 2-element array
exactly when its first element is a non-null object — a Record *or* a
Sequence — and its second element is a string; the generic one-entry-per-
element branch applies only when the first element is not an object (string,
null, undefined) or the second is not a string. -/
theorem C5_options_tuple_check (key s : String) (aF : Bool) :
    (∀ fields, createSearchParams [(key, .arr [some (.obj fields), some (.str s)])] aF =
      [(key, jsToString ((propLookup (.obj fields) s).getD .undef))])
    ∧ (∀ inner, createSearchParams [(key, .arr [some (.arr inner), some (.str s)])] aF =
      [(key, jsToString ((propLookup (.arr inner) s).getD .undef))])
    ∧ (∀ (v0 : JSVal), isJsObject v0 = false →
        createSearchParams [(key, .arr [some v0, some (.str s)])] aF =
          appendAll [] key [some v0, some (.str s)])
    ∧ (∀ (e0 : Option JSVal) (v1 : JSVal), (∀ t, v1 ≠ .str t) →
        createSearchParams [(key, .arr [e0, some v1])] aF =
          appendAll [] key [e0, some v1]) := by
  refine ⟨?_, ?_, ?_, ?_⟩
  · intro fields
    show cspStep aF [] (key, .arr [some (.obj fields), some (.str s)]) = _
    rw [cspStep_options_tuple aF [] key s (.obj fields) rfl]
    rfl
  · intro inner
    show cspStep aF [] (key, .arr [some (.arr inner), some (.str s)]) = _
    rw [cspStep_options_tuple aF [] key s (.arr inner) rfl]
    rfl
  · intro v0 h
    show cspStep aF [] (key, .arr [some v0, some (.str s)]) = _
    dsimp only [cspStep]
    rw [show isNullish (JSVal.arr [some v0, some (.str s)]) = false from rfl,
      show arrReadJS [some v0, some (JSVal.str s)] 0 = v0 from rfl,
      show arrReadJS [some v0, some (JSVal.str s)] 1 = JSVal.str s from rfl, h]
    simp
  · intro e0 v1 h
    show cspStep aF [] (key, .arr [e0, some v1]) = _
    dsimp only [cspStep]
    rw [show isNullish (JSVal.arr [e0, some v1]) = false from rfl,
      show arrReadJS [e0, some v1] 1 = v1 from rfl]
    rcases v1 with t | _ | _ | fl | el
    · exact absurd rfl (h t)
    all_goals simp

/-- Witness for C5 (amended): a Sequence-first pair is still a tuple lookup,
resolving index `"1"` of the inner array. -/
theorem C5_options_tuple_check_witness :
    createSearchParams
        [("k", .arr [some (.arr [some (.str "a"), some (.str "b")]), some (.str "1")])] =
      [("k", "b")] :=
  (C5_options_tuple_check "k" "1" false).2.1 [some (.str "a"), some (.str "b")]

/-- **C10** — When the options-tuple shape check passes but the selected key
is absent from the options record, the encoder still emits exactly one entry
whose value is the stringified missing lookup (`"undefined"`); the
`allowFalsy=false` skip is not applied to the resolved value, although a
directly supplied `undefined` value would have been omitted entirely. -/
theorem C10_missing_option_key_emitted (key s : String) (fields : List (String × JSVal))
    (h : objGet fields s = none) :
    createSearchParams [(key, .arr [some (.obj fields), some (.str s)])] =
      [(key, "undefined")]
    ∧ createSearchParams [(key, .undef)] = [] := by
  constructor
  · show cspStep false [] (key, .arr [some (.obj fields), some (.str s)]) = _
    rw [cspStep_options_tuple false [] key s (.obj fields) rfl]
    dsimp only [propLookup]
    rw [h]
    rfl
  · rfl

/-- Setting an absent key strictly grows the record. -/
theorem objSet_none_ne_self (res : List (String × JSVal)) (x : String) (v : JSVal)
    (h : objGet res x = none) : objSet res x v ≠ res := by
  rw [objSet_of_objGet_none res x v h]
  intro hcon
  have hlen := congrArg List.length hcon
  simp at hlen

/-- Appending an element strictly grows a list. -/
theorem append_singleton_ne_self (e : List (Option JSVal)) (v : Option JSVal) :
    e ++ [v] ≠ e := by
  intro hcon
  have hlen := congrArg List.length hcon
  simp at hlen

/-- Counterexample to C6 as stated: with `allowFalsy = true`, a stored
`undefined` (normalized from the literal string `"undefined"`) is dropped
when its key is promoted to array-valued, because `result[x] === undefined`
cannot distinguish it from an absent slot — the result is `{a: ["x"]}`, not
the claimed `{a: [undefined, "x"]}`. -/
theorem C6_counterexample :
    parseSearchParams [("a", "undefined"), ("a", "x")] true =
      [("a", .arr [some (.str "x")])] := rfl

/-- **C6 (amended)** — When an entry's key is array-valued because the slot
already holds a value, a prior scalar is promoted into a one-element
sequence and the normalized value appended — for every prior scalar
*except a stored `undefined`*, which is indistinguishable from an absent
slot and is discarded (the slot restarts as an empty sequence before the
append). -/
theorem C6_scalar_promotion (aF : Bool) (res : List (String × JSVal)) (x y : String) :
    (∀ s, objGet res x = some (.str s) →
      pspStep aF res (x, y) = objSet res x (.arr [some (.str s), some (getLiteralValue y)]))
    ∧ (objGet res x = some .null →
      pspStep aF res (x, y) = objSet res x (.arr [some .null, some (getLiteralValue y)]))
    ∧ (objGet res x = some .undef →
      pspStep aF res (x, y) = objSet res x (.arr [some (getLiteralValue y)])) := by
  refine ⟨fun s h => ?_, fun h => ?_, fun h => ?_⟩ <;>
    · dsimp only [pspStep]
      rw [h]
      simp

/-- Witness for C6 (amended): a stored undefined restarts the slot as a
one-element sequence, while a stored string scalar is kept and promoted. -/
theorem C6_scalar_promotion_witness :
    pspStep true [("a", JSVal.undef)] ("a", "x") = [("a", JSVal.arr [some (JSVal.str "x")])]
    ∧ pspStep true [("b", JSVal.str "u")] ("b", "x") =
      [("b", JSVal.arr [some (JSVal.str "u"), some (JSVal.str "x")])] :=
  ⟨(C6_scalar_promotion true [("a", JSVal.undef)] "a" "x").2.2 rfl,
   (C6_scalar_promotion true [("b", JSVal.str "u")] "b" "x").1 "u" rfl⟩

/-- **C7** — The flat decoder normalizes exactly the strings `"null"` and
`"undefined"` to the real null/undefined values (all other strings pass
through), and one decode step leaves the result untouched (skips the entry)
exactly when the key is not array-valued, `allowFalsy` is false, and the
normalized value is nullish; the decoder is a total function and the claimed
example outputs hold for both `allowFalsy` settings. -/
theorem C7_literal_normalization_and_skip :
    getLiteralValue "null" = .null
    ∧ getLiteralValue "undefined" = .undef
    ∧ (∀ s, s ≠ "null" → s ≠ "undefined" → getLiteralValue s = .str s)
    ∧ (∀ (aF : Bool) (res : List (String × JSVal)) (x y : String),
        pspStep aF res (x, y) = res ↔
          jsEndsWith x "[]" = false ∧ objGet res x = none ∧ aF = false ∧
            isNullish (getLiteralValue y) = true)
    ∧ parseSearchParams [("a", "1"), ("b", "null"), ("c", "undefined"), ("d", "test")] =
        [("a", .str "1"), ("d", .str "test")]
    ∧ parseSearchParams [("a", "1"), ("b", "null"), ("c", "undefined"), ("d", "test")] true =
        [("a", .str "1"), ("b", .null), ("c", .undef), ("d", .str "test")] := by
  refine ⟨rfl, rfl, ?_, ?_, rfl, rfl⟩
  · intro s h1 h2
    unfold getLiteralValue
    rw [if_neg h1, if_neg h2]
  · intro aF res x y
    constructor
    · intro hstep
      dsimp only [pspStep] at hstep
      rcases hget : objGet res x with _ | w
      · rw [hget] at hstep
        by_cases hend : jsEndsWith x "[]" = true
        · exfalso
          rw [hend] at hstep
          simp only [Option.isSome_none, Bool.true_or, Bool.not_true, Bool.false_and,
            Bool.false_eq_true, if_false] at hstep
          exact objSet_none_ne_self res x _ hget hstep
        · have hend' : jsEndsWith x "[]" = false := by simpa using hend
          rw [hend'] at hstep
          simp only [Option.isSome_none, Bool.or_self, Bool.not_false] at hstep
          by_cases hnull : isNullish (getLiteralValue y) = true
          · by_cases haF : aF = true
            · exfalso
              rw [haF, hnull] at hstep
              simp only [Bool.not_true, Bool.false_and, Bool.and_false,
                Bool.false_eq_true, if_false, Bool.true_and, if_true,
                Bool.and_true] at hstep
              exact objSet_none_ne_self res x _ hget hstep
            · exact ⟨hend', rfl, by simpa using haF, hnull⟩
          · exfalso
            have hnull' : isNullish (getLiteralValue y) = false := by simpa using hnull
            rw [hnull'] at hstep
            simp only [Bool.and_false, Bool.false_eq_true, if_false] at hstep
            exact objSet_none_ne_self res x _ hget hstep
      · exfalso
        rw [hget] at hstep
        simp only [Option.isSome_some, Bool.or_true, Bool.not_true, Bool.false_and,
          Bool.false_eq_true, if_false] at hstep
        have hcon := congrArg (fun l => objGet l x) hstep
        simp only [objGet_objSet_self, hget] at hcon
        rcases w with t | _ | _ | fl | el <;> simp only [Option.some.injEq] at hcon
        · exact JSVal.noConfusion hcon
        · exact JSVal.noConfusion hcon
        · exact JSVal.noConfusion hcon
        · exact JSVal.noConfusion hcon
        · have := JSVal.arr.inj hcon
          exact append_singleton_ne_self el _ this
    · rintro ⟨h1, h2, h3, h4⟩
      subst h3
      dsimp only [pspStep]
      rw [h1, h2, h4]
      simp

/-- Witness for C7: the step on a skippable entry returns the accumulated
record unchanged. -/
theorem C7_literal_normalization_and_skip_witness :
    getLiteralValue "x" = .str "x"
    ∧ pspStep false [("a", JSVal.str "1")] ("b", "null") = [("a", JSVal.str "1")] :=
  ⟨C7_literal_normalization_and_skip.2.2.1 "x" (by decide) (by decide),
   (C7_literal_normalization_and_skip.2.2.2.1 false [("a", JSVal.str "1")] "b" "null").mpr
     ⟨rfl, rfl, rfl, rfl⟩⟩

/-- Witness for C10: looking up the key `"missing"` in `{a: "A"}` emits the
entry `("k", "undefined")` even though `allowFalsy` is false. -/
theorem C10_missing_option_key_emitted_witness :
    createSearchParams [("k", .arr [some (.obj [("a", JSVal.str "A")]), some (.str "missing")])] =
      [("k", "undefined")]
    ∧ createSearchParams [("k", .undef)] = [] :=
  C10_missing_option_key_emitted "k" "missing" [("a", JSVal.str "A")] rfl

end Jabascript
